import Mathlib

/-!
Verification of the Energy-Manager activity tracker core logic.

The definitions below are a shallow embedding of the Python/Django code in
`energy_tracker/` (models.py, utils.py, forms.py, views.py).  The activity
store is modelled as a list of `Activity` records; Django ORM queryset
operations (`filter`, `order_by`, `values(...).annotate(...)`, slicing)
become list filters, stable insertion sorts and `take`; Django's
`Paginator.get_page` is embedded with its documented clamping behaviour.
Timestamps are integers (seconds); `Rat` replaces Python floats for
averages and rounding.
-/

namespace EnergyManager

/-- One row of the `Activity` model (models.py).  `duration` is minutes,
`activity_date` is the occurred-at timestamp in seconds, `created_at` the
creation timestamp.  `user` and `id` are numeric keys. -/
structure Activity where
  id : Nat
  user : Nat
  name : String
  energy_level : Int
  duration : Int
  activity_date : Int
  created_at : Int
deriving DecidableEq, Repr

/-- Python `str.lower()` on the character list of a string. -/
def lowerStr (s : String) : String :=
  ⟨s.data.map Char.toLower⟩

/-- Python `str.strip()`: drop leading and trailing whitespace. -/
def pyStrip (s : String) : String :=
  ⟨(s.data.dropWhile Char.isWhitespace).rdropWhile Char.isWhitespace⟩

/-- Case-insensitive full-string match, Django `name__iexact`. -/
def iexact (a b : String) : Bool :=
  lowerStr a == lowerStr b

/-- Is `pat` a contiguous substring of `hay`? -/
def strContains (hay pat : String) : Bool :=
  (List.range (hay.data.length + 1)).any fun i => pat.data.isPrefixOf (hay.data.drop i)

/-- Case-insensitive substring match, Django `name__icontains`. -/
def icontains (hay pat : String) : Bool :=
  strContains (lowerStr hay) (lowerStr pat)

/-- The sub-store owned by user `u` (`Activity.objects.filter(user=u)`). -/
def ownedBy (u : Nat) (acts : List Activity) : List Activity :=
  acts.filter fun a => a.user == u

/-- `activity_date__date = day`: the activity occurred on the calendar day
starting at timestamp `day` (86400 seconds). -/
def onDay (day : Int) (a : Activity) : Bool :=
  decide (day ≤ a.activity_date) && decide (a.activity_date < day + 86400)

/-- Today's activities of a user (dashboard/homepage queryset). -/
def today_activities (u : Nat) (day : Int) (acts : List Activity) : List Activity :=
  (ownedBy u acts).filter (onDay day)

/-- `order_by("-activity_date")`: descending by occurred-at. -/
def byDateDesc (a b : Activity) : Prop :=
  b.activity_date ≤ a.activity_date

instance : DecidableRel byDateDesc :=
  fun a b => inferInstanceAs (Decidable (b.activity_date ≤ a.activity_date))

instance : IsTotal Activity byDateDesc :=
  ⟨fun a b => (le_total b.activity_date a.activity_date).imp id id⟩

instance : IsTrans Activity byDateDesc :=
  ⟨fun _ _ _ hab hbc => le_trans hbc hab⟩

/-- Stable sort of a queryset by occurred-at descending. -/
def sortByDateDesc (l : List Activity) : List Activity :=
  l.insertionSort byDateDesc

/-- `recent_activities = today_activities[:5]` after `order_by("-activity_date")`
(views.py dashboard_view / homepage_view). -/
def recent_activities (u : Nat) (day : Int) (acts : List Activity) : List Activity :=
  (sortByDateDesc (today_activities u day acts)).take 5

/-! ### Name canonicalizer (utils.py, get_canonical_activity_name) -/

/-- Group a list of names by exact spelling with occurrence counts
(`values("name").annotate(count=Count("name"))`). -/
def groupCounts (names : List String) : List (String × Nat) :=
  names.dedup.map fun n => (n, names.count n)

/-- `order_by("-count")`: descending by count (ties left to list order). -/
def byCountDesc (g h : String × Nat) : Prop :=
  h.2 ≤ g.2

instance : DecidableRel byCountDesc :=
  fun g h => inferInstanceAs (Decidable (h.2 ≤ g.2))

instance : IsTotal (String × Nat) byCountDesc :=
  ⟨fun g h => (le_total h.2 g.2).imp id id⟩

instance : IsTrans (String × Nat) byCountDesc :=
  ⟨fun _ _ _ hab hbc => le_trans hbc hab⟩

/-- The case-insensitive matches of a candidate name among a user's
activities (`filter(user=user, name__iexact=name_input)`). -/
def iexactMatches (u : Nat) (acts : List Activity) (t : String) : List Activity :=
  (ownedBy u acts).filter fun a => iexact a.name t

/-- utils.py `get_canonical_activity_name`: strip the input, find the user's
activities matching case-insensitively, group by exact name, order by count
descending, return the first group's name; if no match, the stripped input. -/
def get_canonical_activity_name (u : Nat) (acts : List Activity) (name_input : String) : String :=
  let t := pyStrip name_input
  let matching := iexactMatches u acts t
  match (groupCounts (matching.map (·.name))).insertionSort byCountDesc with
  | [] => t
  | g :: _ => g.1

/-! ### Dashboard aggregation (views.py, dashboard_view) -/

/-- One row of `values("name").annotate(avg_energy=Avg("energy_level"),
count=Count("id"))`. -/
structure NameGroup where
  name : String
  avg_energy : ℚ
  count : Nat
deriving DecidableEq, Repr

/-- The rows of `rows` carrying the exact name `n`. -/
def groupOf (rows : List Activity) (n : String) : List Activity :=
  rows.filter fun a => a.name == n

/-- The aggregation row for one exact name: its mean energy and its size. -/
def mkGroup (rows : List Activity) (n : String) : NameGroup :=
  ⟨n, ((((groupOf rows n).map (·.energy_level)).sum : ℤ) : ℚ) /
    ((groupOf rows n).length : ℚ), (groupOf rows n).length⟩

/-- Group rows by exact name and compute each group's mean energy and size. -/
def groupByName (rows : List Activity) : List NameGroup :=
  (rows.map (·.name)).dedup.map (mkGroup rows)

/-- `order_by("avg_energy")`: ascending by mean energy. -/
def byAvgAsc (g h : NameGroup) : Prop :=
  g.avg_energy ≤ h.avg_energy

instance : DecidableRel byAvgAsc :=
  fun g h => inferInstanceAs (Decidable (g.avg_energy ≤ h.avg_energy))

instance : IsTotal NameGroup byAvgAsc :=
  ⟨fun g h => le_total g.avg_energy h.avg_energy⟩

instance : IsTrans NameGroup byAvgAsc :=
  ⟨fun _ _ _ hab hbc => le_trans hab hbc⟩

/-- `order_by("-avg_energy")`: descending by mean energy. -/
def byAvgDesc (g h : NameGroup) : Prop :=
  h.avg_energy ≤ g.avg_energy

instance : DecidableRel byAvgDesc :=
  fun g h => inferInstanceAs (Decidable (h.avg_energy ≤ g.avg_energy))

instance : IsTotal NameGroup byAvgDesc :=
  ⟨fun g h => (le_total h.avg_energy g.avg_energy).imp id id⟩

instance : IsTrans NameGroup byAvgDesc :=
  ⟨fun _ _ _ hab hbc => le_trans hbc hab⟩

/-- The owner's rows with negative energy (`filter(user=u, energy_level__lt=0)`). -/
def negRows (u : Nat) (acts : List Activity) : List Activity :=
  (ownedBy u acts).filter fun a => decide (a.energy_level < 0)

/-- The owner's rows with positive energy (`filter(user=u, energy_level__gt=0)`). -/
def posRows (u : Nat) (acts : List Activity) : List Activity :=
  (ownedBy u acts).filter fun a => decide (0 < a.energy_level)

/-- views.py: `draining_activities = filter(user, energy_level__lt=0)
.values("name").annotate(avg, count).order_by("avg_energy")[:3]`. -/
def draining_activities (u : Nat) (acts : List Activity) : List NameGroup :=
  ((groupByName (negRows u acts)).insertionSort byAvgAsc).take 3

/-- views.py: `energizing_activities = filter(user, energy_level__gt=0)
.values("name").annotate(avg, count).order_by("-avg_energy")[:3]`. -/
def energizing_activities (u : Nat) (acts : List Activity) : List NameGroup :=
  ((groupByName (posRows u acts)).insertionSort byAvgDesc).take 3

/-- Mean energy over ALL of the owner's activities with a given exact name
(what the spec sentence describes: the overall per-name mean). -/
def overallMean (u : Nat) (acts : List Activity) (n : String) : ℚ :=
  let g := (ownedBy u acts).filter fun a => a.name == n
  (((g.map (·.energy_level)).sum : ℤ) : ℚ) / (g.length : ℚ)

/-- Python `round(x, 2)` on exact rationals: scale by 100, round to the
nearest integer, scale back. -/
def round2 (q : ℚ) : ℚ :=
  ((round (q * 100) : ℤ) : ℚ) / 100

/-- Total minutes of today's activities at one energy category
(`today_activities.filter(energy_level=c).aggregate(Sum("duration"))`). -/
def categoryMinutes (u : Nat) (day : Int) (acts : List Activity) (c : Int) : Int :=
  (((today_activities u day acts).filter fun a => a.energy_level == c).map (·.duration)).sum

/-- views.py dashboard_view: `hours_per_category`, a dict from the category
string to `round(total_minutes / 60.0, 2)`. -/
def hours_per_category (u : Nat) (day : Int) (acts : List Activity) : List (String × ℚ) :=
  ([-2, -1, 0, 1, 2] : List Int).map fun c =>
    (toString c, round2 ((categoryMinutes u day acts c : ℚ) / 60))

/-! ### Autocomplete ranker (views.py, autocomplete_activities_view) -/

/-- One autocomplete suggestion. -/
structure Suggestion where
  name : String
  count : Nat
  is_top_5 : Bool
deriving DecidableEq, Repr

/-- `order_by("-count", "name")`: count descending, ties by name ascending. -/
def byCountDescNameAsc (g h : String × Nat) : Prop :=
  h.2 < g.2 ∨ (g.2 = h.2 ∧ g.1 ≤ h.1)

instance : DecidableRel byCountDescNameAsc :=
  fun g h => inferInstanceAs (Decidable (h.2 < g.2 ∨ (g.2 = h.2 ∧ g.1 ≤ h.1)))

instance : IsTotal (String × Nat) byCountDescNameAsc := by
  constructor
  intro g h
  rcases lt_trichotomy g.2 h.2 with hlt | heq | hgt
  · exact Or.inr (Or.inl hlt)
  · rcases le_total g.1 h.1 with hle | hge
    · exact Or.inl (Or.inr ⟨heq, hle⟩)
    · exact Or.inr (Or.inr ⟨heq.symm, hge⟩)
  · exact Or.inl (Or.inl hgt)

instance : IsTrans (String × Nat) byCountDescNameAsc := by
  constructor
  intro a b c hab hbc
  rcases hab with h1 | ⟨h1, h1n⟩ <;> rcases hbc with h2 | ⟨h2, h2n⟩
  · exact Or.inl (lt_trans h2 h1)
  · exact Or.inl (h2 ▸ h1)
  · exact Or.inl (h1 ▸ h2)
  · exact Or.inr ⟨h1.trans h2, le_trans h1n h2n⟩

/-- The names of the owner's activities matching the query as a
case-insensitive substring (`filter(user=u, name__icontains=q)`). -/
def matchingNames (u : Nat) (q : String) (acts : List Activity) : List String :=
  (((ownedBy u acts).filter fun a => icontains a.name q).map (·.name))

/-- Top 5 most frequent activity names overall for the user (by count
descending only), used for the `is_top_5` flag. -/
def top5Overall (u : Nat) (acts : List Activity) : List (String × Nat) :=
  ((groupCounts ((ownedBy u acts).map (·.name))).insertionSort byCountDesc).take 5

/-- views.py autocomplete_activities_view: strip the query; empty query gives
no suggestions; otherwise group the case-insensitive substring matches by
exact name, order by (-count, name), truncate to 5, and flag membership in
the user's overall top 5. -/
def autocomplete_activities (u : Nat) (q : String) (acts : List Activity) : List Suggestion :=
  let t := pyStrip q
  if t = "" then []
  else
    let groups := (groupCounts (matchingNames u t acts)).insertionSort byCountDescNameAsc
    let top5names := (top5Overall u acts).map fun g => lowerStr g.1
    (groups.take 5).map fun g => ⟨g.1, g.2, (top5names.contains (lowerStr g.1))⟩

/-! ### History filter and paginator (views.py, activity_history_view) -/

/-- The GET parameters of the history view that shape the queryset. -/
structure HistoryFilters where
  energy : Option String
  q : String
  view : String
deriving DecidableEq, Repr

/-- Accumulate decimal digits; any non-digit character fails the parse. -/
def parseNatAux : Nat → List Char → Option Nat
  | acc, [] => some acc
  | acc, c :: cs =>
    if c.isDigit then parseNatAux (acc * 10 + (c.toNat - 48)) cs else none

/-- Python `int(s)` on a decimal string: an optional leading minus sign
followed by at least one digit; anything else raises (here: `none`). -/
def pyInt? (s : String) : Option Int :=
  match s.data with
  | [] => none
  | c :: cs =>
    if c = '-' then
      match cs with
      | [] => none
      | _ :: _ => (parseNatAux 0 cs).map fun v => -(v : Int)
    else if c.isDigit then (parseNatAux 0 (c :: cs)).map fun v => (v : Int)
    else none

/-- `energy_filter = request.GET.get("energy")`; falsy values skip the
filter, `int(...)` failures reset it to no filter. -/
def applyEnergyFilter (e : Option String) (acts : List Activity) : List Activity :=
  match e with
  | none => acts
  | some s =>
    if s = "" then acts
    else
      match pyInt? s with
      | some n => acts.filter fun a => a.energy_level == n
      | none => acts

/-- Start of the time window: `day` = local midnight, `week` = now minus 7
days, anything else = now minus 30 days. -/
def windowStart (now dayStart : Int) (view : String) : Int :=
  if view = "day" then dayStart
  else if view = "week" then now - 7 * 86400
  else now - 30 * 86400

/-- The filtered (not yet sorted) history queryset: owner scope, energy
filter, time window, then name search. -/
def historyFiltered (u : Nat) (f : HistoryFilters) (now dayStart : Int)
    (acts : List Activity) : List Activity :=
  let base := ownedBy u acts
  let e := applyEnergyFilter f.energy base
  let start := windowStart now dayStart f.view
  let w := e.filter fun a => decide (start ≤ a.activity_date)
  if pyStrip f.q = "" then w
  else w.filter fun a => icontains a.name (pyStrip f.q)

/-- The history queryset after `order_by("-activity_date")`. -/
def historySorted (u : Nat) (f : HistoryFilters) (now dayStart : Int)
    (acts : List Activity) : List Activity :=
  sortByDateDesc (historyFiltered u f now dayStart acts)

/-- The page parameter as Django's `Paginator.get_page` receives it:
missing, a non-integer string, or an integer. -/
inductive PageParam where
  | missing
  | notInt
  | num (n : Int)
deriving DecidableEq, Repr

/-- Django `Paginator.num_pages` with `per_page = 20`, `orphans = 0`,
`allow_empty_first_page = True`: `ceil(max(1, count) / 20)`. -/
def numPages (count : Nat) : Nat :=
  (max 1 count + 19) / 20

/-- Django `Paginator.get_page` page-number resolution: a non-integer gives
page 1; a number below 1 or beyond the last page gives the last page. -/
def resolvePage (count : Nat) (p : PageParam) : Nat :=
  match p with
  | .missing => 1
  | .notInt => 1
  | .num n =>
    if n < 1 then numPages count
    else if (numPages count : Int) < n then numPages count
    else n.toNat

/-- Django `Paginator.get_page` over a list: the resolved page's slice of 20
items, with the resolved page number and the page count. -/
def getPage (l : List Activity) (p : PageParam) : List Activity × Nat × Nat :=
  let pg := resolvePage l.length p
  ((l.drop ((pg - 1) * 20)).take 20, pg, numPages l.length)

/-- The whole history view pipeline: filter, sort, paginate. -/
def activity_history (u : Nat) (f : HistoryFilters) (now dayStart : Int)
    (acts : List Activity) (p : PageParam) : List Activity × Nat × Nat :=
  getPage (historySorted u f now dayStart acts) p

/-- Any result list Django is allowed to hand back for the history queryset:
a permutation of the filtered rows that is sorted by occurred-at descending.
The SQL `ORDER BY activity_date DESC` pins nothing else down. -/
def ValidHistoryOrder (u : Nat) (f : HistoryFilters) (now dayStart : Int)
    (acts : List Activity) (l : List Activity) : Prop :=
  l.Perm (historyFiltered u f now dayStart acts) ∧ l.Pairwise byDateDesc

/-- Equal occurred-at timestamps are ordered by id descending. -/
def tiesIdDesc (l : List Activity) : Prop :=
  l.Pairwise fun a b => a.activity_date = b.activity_date → b.id < a.id

/-- `get_object_or_404(Activity, pk=pk, user=request.user)` as an option:
the activity with this id owned by this user, if any (edit/delete views). -/
def findActivity (acts : List Activity) (pk u : Nat) : Option Activity :=
  acts.find? fun a => a.id == pk && a.user == u

/-! ### Activity form validation and creation (forms.py ActivityForm,
views.py log_activity_view / edit_activity_view) -/

/-- A raw form submission: typed field values as bound to ActivityForm. -/
structure Submission where
  name : String
  energy_level : Int
  duration_hours : Int
  duration_minutes : Int
  activity_date : Option Int
deriving DecidableEq, Repr

/-- `energy_level` must be one of the model's choices {-2, -1, 1, 2}. -/
def energyFieldOk (s : Submission) : Bool :=
  ([-2, -1, 1, 2] : List Int).contains s.energy_level

/-- `duration_hours` field constraint: `min_value=0, max_value=24`. -/
def hoursFieldOk (s : Submission) : Bool :=
  decide (0 ≤ s.duration_hours) && decide (s.duration_hours ≤ 24)

/-- `duration_minutes` field constraint: `min_value=0, max_value=59`. -/
def minutesFieldOk (s : Submission) : Bool :=
  decide (0 ≤ s.duration_minutes) && decide (s.duration_minutes ≤ 59)

/-- `clean_name`: the stripped name. -/
def cleanedName (s : Submission) : String :=
  pyStrip s.name

/-- `clean_name` validation: non-empty after strip and at most 100 chars. -/
def nameOk (s : Submission) : Bool :=
  !(cleanedName s == "") && decide ((cleanedName s).data.length ≤ 100)

/-- `clean_activity_date`: a provided date must not be after now. -/
def dateOk (now : Int) (s : Submission) : Bool :=
  match s.activity_date with
  | none => true
  | some d => !(decide (now < d))

/-- `clean()`: total minutes, a failed duration field contributing 0. -/
def totalDuration (s : Submission) : Int :=
  (if hoursFieldOk s then s.duration_hours else 0) * 60 +
    (if minutesFieldOk s then s.duration_minutes else 0)

/-- `clean()` validation: total duration within [1, 1440]. -/
def durationOk (s : Submission) : Bool :=
  decide (1 ≤ totalDuration s) && decide (totalDuration s ≤ 1440)

/-- `form.is_valid()`: all field and form validations pass. -/
def formValid (now : Int) (s : Submission) : Bool :=
  nameOk s && energyFieldOk s && hoursFieldOk s && minutesFieldOk s &&
    dateOk now s && durationOk s

/-- views.py log_activity_view on POST: if the form is valid, append a new
activity whose name is canonicalized, whose duration is the computed total,
and whose date defaults to now; otherwise leave the store unchanged. -/
def logActivity (u newId : Nat) (now : Int) (s : Submission)
    (acts : List Activity) : List Activity :=
  if formValid now s then
    acts ++ [⟨newId, u, get_canonical_activity_name u acts (cleanedName s),
      s.energy_level, totalDuration s, (s.activity_date).getD now, now⟩]
  else acts

/-- views.py edit_activity_view on POST: if the target exists for this user
and the form is valid, replace its submitted fields; otherwise leave the
store unchanged. -/
def editActivity (u pk : Nat) (now : Int) (s : Submission)
    (acts : List Activity) : List Activity :=
  match findActivity acts pk u with
  | none => acts
  | some _ =>
    if formValid now s then
      acts.map fun a =>
        if a.id == pk && a.user == u then
          { a with
            name := cleanedName s
            energy_level := s.energy_level
            duration := totalDuration s
            activity_date := (s.activity_date).getD a.activity_date }
        else a
    else acts

/-! ### Concrete stores and submissions used in examples -/

/-- A name with energies [-2, -2, 1]: overall mean −1, but one positive row. -/
def mixedStore : List Activity :=
  [⟨1, 1, "X", -2, 60, 0, 0⟩, ⟨2, 1, "X", -2, 60, 0, 0⟩, ⟨3, 1, "X", 1, 60, 0, 0⟩]

/-- Stored counts {Meeting: 5, meeting: 2} for user 1. -/
def meetingStore : List Activity :=
  [⟨1, 1, "Meeting", 1, 60, 0, 0⟩, ⟨2, 1, "Meeting", 1, 60, 0, 0⟩,
   ⟨3, 1, "Meeting", 1, 60, 0, 0⟩, ⟨4, 1, "Meeting", 1, 60, 0, 0⟩,
   ⟨5, 1, "Meeting", 1, 60, 0, 0⟩,
   ⟨6, 1, "meeting", -1, 60, 0, 0⟩, ⟨7, 1, "meeting", -1, 60, 0, 0⟩]

/-- Stored counts {Meeting: 5, Meetup: 2} for user 1. -/
def meetupStore : List Activity :=
  [⟨1, 1, "Meeting", 1, 60, 0, 0⟩, ⟨2, 1, "Meeting", 1, 60, 0, 0⟩,
   ⟨3, 1, "Meeting", 1, 60, 0, 0⟩, ⟨4, 1, "Meeting", 1, 60, 0, 0⟩,
   ⟨5, 1, "Meeting", 1, 60, 0, 0⟩,
   ⟨6, 1, "Meetup", 2, 60, 0, 0⟩, ⟨7, 1, "Meetup", 2, 60, 0, 0⟩]

/-- 180 minutes at level 2 and 15 minutes at level −1, same day. -/
def hoursStore : List Activity :=
  [⟨1, 1, "Work", 2, 180, 100, 0⟩, ⟨2, 1, "Break", -1, 15, 200, 0⟩]

/-- 25 identical same-day activities of user 1, ids 0..24. -/
def pagingStore : List Activity :=
  (List.range 25).map fun i => ⟨i, 1, "A", 1, 60, 0, 0⟩

/-- History filters that select everything in the week window. -/
def noFilters : HistoryFilters :=
  ⟨none, "", "week"⟩

/-- Two same-owner activities with equal occurred-at and ascending ids. -/
def tieStore : List Activity :=
  [⟨1, 1, "A", 1, 60, 0, 0⟩, ⟨2, 1, "A", 1, 60, 0, 0⟩]

/-- Six same-day activities of user 1 at distinct later hours. -/
def sixStore : List Activity :=
  [⟨1, 1, "A1", 1, 60, 3600, 0⟩, ⟨2, 1, "A2", 1, 60, 7200, 0⟩,
   ⟨3, 1, "A3", 1, 60, 10800, 0⟩, ⟨4, 1, "A4", 1, 60, 14400, 0⟩,
   ⟨5, 1, "A5", 1, 60, 18000, 0⟩, ⟨6, 1, "A6", 1, 60, 21600, 0⟩]

/-- A retroactive same-day entry of user 1, earlier than all of `sixStore`. -/
def earlyAct : Activity :=
  ⟨7, 1, "Early", 1, 60, 100, 999⟩

/-- Activities of two different users. -/
def twoUserStore : List Activity :=
  [⟨1, 1, "Mine", 1, 60, 0, 0⟩, ⟨2, 2, "Theirs", -1, 60, 0, 0⟩]

/-- A valid submission: 1h30m, one second in the past of `now = 100`. -/
def subGood : Submission :=
  ⟨"Run", 1, 1, 30, some 99⟩

/-- A submission dated one second in the future of `now = 100`. -/
def subFuture : Submission :=
  ⟨"Run", 1, 1, 30, some 101⟩

/-- A submission totalling 24h30m = 1470 minutes, over the 1440 cap. -/
def subLong : Submission :=
  ⟨"Run", 1, 24, 30, none⟩

/-- A submission whose name is whitespace only. -/
def subEmptyName : Submission :=
  ⟨"   ", 1, 1, 0, none⟩

/-- The user types MEETING while owning five activities named Meeting. -/
def subMeeting : Submission :=
  ⟨"MEETING", 1, 1, 0, some 50⟩

/-- Five activities named Meeting for user 1. -/
def fiveMeetings : List Activity :=
  [⟨1, 1, "Meeting", 1, 60, 0, 0⟩, ⟨2, 1, "Meeting", 1, 60, 0, 0⟩,
   ⟨3, 1, "Meeting", 1, 60, 0, 0⟩, ⟨4, 1, "Meeting", 1, 60, 0, 0⟩,
   ⟨5, 1, "Meeting", 1, 60, 0, 0⟩]

/-! ## Helper lemmas -/

theorem ownedBy_idem (u : Nat) (acts : List Activity) :
    ownedBy u (ownedBy u acts) = ownedBy u acts := by
  unfold ownedBy
  rw [List.filter_filter]
  apply List.filter_congr
  intro a _
  cases h : (a.user == u) <;> simp [h]

theorem mem_ownedBy {u : Nat} {acts : List Activity} {a : Activity}
    (h : a ∈ ownedBy u acts) : a ∈ acts ∧ a.user = u := by
  unfold ownedBy at h
  rw [List.mem_filter] at h
  exact ⟨h.1, by simpa using h.2⟩

theorem head_dropWhile_false {p : Char → Bool} :
    ∀ (l : List Char) (c : Char), (l.dropWhile p).head? = some c → p c = false := by
  intro l
  induction l with
  | nil => intro c h; simp [List.dropWhile] at h
  | cons a t ih =>
    intro c h
    by_cases hp : p a
    · rw [List.dropWhile_cons_of_pos hp] at h
      exact ih c h
    · rw [List.dropWhile_cons_of_neg hp] at h
      simp at h
      subst h
      simpa using hp

theorem dropWhile_eq_self_of_head {p : Char → Bool} {l : List Char}
    (h : ∀ c, l.head? = some c → p c = false) : l.dropWhile p = l := by
  cases l with
  | nil => simp
  | cons a t =>
    have := h a (by simp)
    simp [List.dropWhile_cons, this]

theorem pyStrip_idem (s : String) : pyStrip (pyStrip s) = pyStrip s := by
  unfold pyStrip
  congr 1
  set w := Char.isWhitespace
  set A := s.data.dropWhile w with hA
  have hdropA : A.dropWhile w = A := by
    rw [hA, List.dropWhile_idempotent]
  have hpre : A.rdropWhile w <+: A := List.rdropWhile_prefix w A
  have hdropR : (A.rdropWhile w).dropWhile w = A.rdropWhile w := by
    apply dropWhile_eq_self_of_head
    intro c hc
    obtain ⟨t, ht⟩ := hpre
    have hAc : A.head? = some c := by
      rw [← ht]
      cases hB : A.rdropWhile w with
      | nil => rw [hB] at hc; simp at hc
      | cons b bs =>
        rw [hB] at hc
        simp at hc
        subst hc
        simp
    have hhead : (A.dropWhile w).head? = some c := by rw [hdropA]; exact hAc
    exact head_dropWhile_false A c hhead
  rw [hdropR, List.rdropWhile_idempotent]

theorem lowerStr_eq_empty {s : String} (h : lowerStr s = "") : s = "" := by
  unfold lowerStr at h
  have hd : s.data.map Char.toLower = [] := congrArg String.data h
  have : s.data = [] := List.map_eq_nil_iff.mp hd
  cases s
  simp at this
  simp [this]

theorem orderedInsert_append_single {α : Type} (r : α → α → Prop) [DecidableRel r]
    (a x : α) (h : r a x) :
    ∀ s : List α, (s ++ [x]).orderedInsert r a = s.orderedInsert r a ++ [x] := by
  intro s
  induction s with
  | nil => simp [List.orderedInsert, h]
  | cons b t ih =>
    by_cases hb : r a b
    · simp [List.orderedInsert, hb]
    · simp [List.orderedInsert, hb, ih]

theorem insertionSort_append_single {α : Type} (r : α → α → Prop) [DecidableRel r]
    (x : α) : ∀ l : List α, (∀ a ∈ l, r a x) →
    (l ++ [x]).insertionSort r = l.insertionSort r ++ [x] := by
  intro l
  induction l with
  | nil => simp [List.insertionSort, List.orderedInsert]
  | cons a t ih =>
    intro h
    have hax : r a x := h a (by simp)
    have ht : ∀ b ∈ t, r b x := fun b hb => h b (by simp [hb])
    show List.orderedInsert r a ((t ++ [x]).insertionSort r) =
      List.orderedInsert r a (t.insertionSort r) ++ [x]
    rw [ih ht]
    exact orderedInsert_append_single r a x hax _

theorem sorted_head_rel {α : Type} (r : α → α → Prop) [DecidableRel r]
    [IsTotal α r] [IsTrans α r] {l rest : List α} {g : α}
    (h : l.insertionSort r = g :: rest) : ∀ x ∈ l, r g x := by
  intro x hx
  have hs : List.Sorted r (l.insertionSort r) := List.sorted_insertionSort r l
  rw [h] at hs
  have hmem : x ∈ l.insertionSort r := (List.mem_insertionSort r).mpr hx
  rw [h] at hmem
  rcases List.mem_cons.mp hmem with heq | hr
  · subst heq
    exact (total_of r x x).elim id id
  · exact List.rel_of_sorted_cons hs x hr

theorem orderedInsert_map {α β : Type} (r : β → β → Prop) (s : α → α → Prop)
    [DecidableRel r] [DecidableRel s] (g : α → β)
    (hc : ∀ a b, r (g a) (g b) ↔ s a b) (a : α) :
    ∀ l : List α, (l.map g).orderedInsert r (g a) = (l.orderedInsert s a).map g := by
  intro l
  induction l with
  | nil => simp [List.orderedInsert]
  | cons b t ih =>
    by_cases hb : s a b
    · simp [List.orderedInsert, if_pos ((hc a b).mpr hb), if_pos hb]
    · have : ¬ r (g a) (g b) := fun hr => hb ((hc a b).mp hr)
      simp [List.orderedInsert, if_neg this, if_neg hb, ih]

theorem insertionSort_map {α β : Type} (r : β → β → Prop) (s : α → α → Prop)
    [DecidableRel r] [DecidableRel s] (g : α → β)
    (hc : ∀ a b, r (g a) (g b) ↔ s a b) :
    ∀ l : List α, (l.map g).insertionSort r = (l.insertionSort s).map g := by
  intro l
  induction l with
  | nil => simp [List.insertionSort]
  | cons a t ih =>
    simp only [List.map_cons, List.insertionSort, ih]
    exact orderedInsert_map r s g hc a _

theorem mem_groupCounts {names : List String} {p : String × Nat}
    (h : p ∈ groupCounts names) : p.1 ∈ names ∧ p.2 = names.count p.1 := by
  unfold groupCounts at h
  rcases List.mem_map.mp h with ⟨n, hn, heq⟩
  have h1 : p.1 = n := by rw [← heq]
  have h2 : p.2 = names.count n := by rw [← heq]
  subst h1
  exact ⟨List.mem_dedup.mp hn, h2⟩

theorem groupCounts_of_mem {names : List String} {n : String}
    (h : n ∈ names) : (n, names.count n) ∈ groupCounts names := by
  unfold groupCounts
  exact List.mem_map.mpr ⟨n, List.mem_dedup.mpr h, rfl⟩

theorem mem_groupByName {rows : List Activity} {g : NameGroup}
    (h : g ∈ groupByName rows) :
    ∃ n, n ∈ rows.map (·.name) ∧ g = mkGroup rows n ∧ groupOf rows n ≠ [] := by
  unfold groupByName at h
  rcases List.mem_map.mp h with ⟨n, hn, heq⟩
  have hmem : n ∈ rows.map (·.name) := List.mem_dedup.mp hn
  refine ⟨n, hmem, heq.symm, ?_⟩
  rcases List.mem_map.mp hmem with ⟨a, ha, hna⟩
  have hag : a ∈ groupOf rows n := by
    unfold groupOf
    rw [List.mem_filter]
    exact ⟨ha, by simp [hna]⟩
  exact List.ne_nil_of_mem hag

theorem sum_neg_of_all_neg :
    ∀ l : List Int, l ≠ [] → (∀ x ∈ l, x < 0) → l.sum < 0 := by
  intro l
  induction l with
  | nil => intro h; exact absurd rfl h
  | cons a t ih =>
    intro _ hall
    have ha : a < 0 := hall a (by simp)
    by_cases hte : t = []
    · subst hte; simpa using ha
    · have := ih hte fun x hx => hall x (by simp [hx])
      simp only [List.sum_cons]
      omega

theorem sum_pos_of_all_pos :
    ∀ l : List Int, l ≠ [] → (∀ x ∈ l, 0 < x) → 0 < l.sum := by
  intro l
  induction l with
  | nil => intro h; exact absurd rfl h
  | cons a t ih =>
    intro _ hall
    have ha : 0 < a := hall a (by simp)
    by_cases hte : t = []
    · subst hte; simpa using ha
    · have := ih hte fun x hx => hall x (by simp [hx])
      simp only [List.sum_cons]
      omega

theorem canonical_eq (u : Nat) (acts : List Activity) (s : String) :
    get_canonical_activity_name u acts s =
      match (groupCounts ((iexactMatches u acts (pyStrip s)).map (·.name))).insertionSort
          byCountDesc with
      | [] => pyStrip s
      | g :: _ => g.1 :=
  rfl

theorem lowerStr_empty : lowerStr "" = "" :=
  rfl

theorem mem_iexactMatches {u : Nat} {acts : List Activity} {t : String} {a : Activity}
    (h : a ∈ iexactMatches u acts t) : a ∈ ownedBy u acts ∧ iexact a.name t = true := by
  unfold iexactMatches at h
  rw [List.mem_filter] at h
  exact h

theorem autocomplete_eq (u : Nat) (q : String) (acts : List Activity)
    (h : ¬ pyStrip q = "") :
    autocomplete_activities u q acts =
      (((groupCounts (matchingNames u (pyStrip q) acts)).insertionSort
          byCountDescNameAsc).take 5).map fun g =>
        ⟨g.1, g.2, (((top5Overall u acts).map fun g2 => lowerStr g2.1).contains
          (lowerStr g.1))⟩ := by
  unfold autocomplete_activities
  rw [if_neg h]

theorem filter_map_comm {α β : Type} (g : α → β) (p : β → Bool) :
    ∀ l : List α, (l.map g).filter p = (l.filter fun a => p (g a)).map g := by
  intro l
  induction l with
  | nil => simp
  | cons a t ih =>
    by_cases h : p (g a) <;> simp [h, ih]

theorem one_le_numPages (count : Nat) : 1 ≤ numPages count := by
  unfold numPages
  omega

theorem resolvePage_high {count : Nat} {n : Int} (h : (numPages count : Int) < n) :
    resolvePage count (.num n) = numPages count := by
  simp only [resolvePage]
  have h1 : ¬ n < 1 := by
    have := one_le_numPages count
    omega
  rw [if_neg h1, if_pos h]

theorem resolvePage_low {count : Nat} {n : Int} (h : n < 1) :
    resolvePage count (.num n) = numPages count := by
  simp only [resolvePage]
  rw [if_pos h]

theorem resolvePage_self (count : Nat) :
    resolvePage count (.num (numPages count)) = numPages count := by
  simp only [resolvePage]
  have h1 : ¬ ((numPages count : Int) < 1) := by
    have := one_le_numPages count
    omega
  rw [if_neg h1, if_neg (lt_irrefl _)]
  exact Int.toNat_natCast _

/-! ## Claim theorems -/

/-- C2: autocomplete suggestions, name canonicalization and the history
query computed for a user depend only on that user's own activities — the
store may be restricted to the user's rows without changing any result —
and looking up an activity id owned by another user gives exactly the same
not-found outcome as looking up an id that does not exist at all. -/
theorem C2_user_isolation :
    (∀ (u : Nat) (q : String) (acts : List Activity),
      autocomplete_activities u q (ownedBy u acts) = autocomplete_activities u q acts) ∧
    (∀ (u : Nat) (n : String) (acts : List Activity),
      get_canonical_activity_name u (ownedBy u acts) n =
        get_canonical_activity_name u acts n) ∧
    (∀ (u : Nat) (f : HistoryFilters) (now dayStart : Int) (acts : List Activity)
      (p : PageParam),
      activity_history u f now dayStart (ownedBy u acts) p =
        activity_history u f now dayStart acts p) ∧
    (∀ (u1 u2 pk pkAbsent : Nat) (acts : List Activity), u1 ≠ u2 →
      (∀ a ∈ acts, a.id = pk → a.user = u2) → (∀ a ∈ acts, a.id ≠ pkAbsent) →
      findActivity acts pk u1 = none ∧
        findActivity acts pk u1 = findActivity acts pkAbsent u1) := by
  refine ⟨?_, ?_, ?_, ?_⟩
  · intro u q acts
    simp only [autocomplete_activities, matchingNames, top5Overall, ownedBy_idem]
  · intro u n acts
    simp only [get_canonical_activity_name, iexactMatches, ownedBy_idem]
  · intro u f now dayStart acts p
    simp only [activity_history, historySorted, historyFiltered, ownedBy_idem]
  · intro u1 u2 pk pkAbsent acts hne hpk habs
    have h1 : findActivity acts pk u1 = none := by
      unfold findActivity
      rw [List.find?_eq_none]
      intro a ha
      simp only [Bool.and_eq_true, beq_iff_eq, not_and]
      intro hid
      intro huser
      exact hne (huser ▸ hpk a ha hid)
    have h2 : findActivity acts pkAbsent u1 = none := by
      unfold findActivity
      rw [List.find?_eq_none]
      intro a ha
      simp only [Bool.and_eq_true, beq_iff_eq, not_and]
      intro hid
      exact absurd hid (habs a ha)
    exact ⟨h1, h1.trans h2.symm⟩

/-- Witness for C2 at a concrete two-user store: user 1's lookup of user 2's
activity id 2 is `none`, identical to looking up the absent id 99, and
restricting the store to user 1's rows leaves autocomplete unchanged. -/
theorem C2_user_isolation_witness :
    autocomplete_activities 1 "m" (ownedBy 1 twoUserStore) =
      autocomplete_activities 1 "m" twoUserStore ∧
    findActivity twoUserStore 2 1 = none ∧
    findActivity twoUserStore 2 1 = findActivity twoUserStore 99 1 := by
  refine ⟨C2_user_isolation.1 1 "m" twoUserStore, ?_, ?_⟩
  · exact (C2_user_isolation.2.2.2 1 2 2 99 twoUserStore (by decide) (by decide)
      (by decide)).1
  · exact (C2_user_isolation.2.2.2 1 2 2 99 twoUserStore (by decide) (by decide)
      (by decide)).2

/-- C5: canonicalization strips the candidate first; a stripped-empty input
comes back as the empty string; with no case-insensitive match the stripped
input is returned unchanged; otherwise the returned name is one of the
matching exact-cased variants and has the highest occurrence count among
them; and on counts {Meeting: 5, meeting: 2} the input MEETING canonicalizes
to Meeting. -/
theorem C5_canonicalize (u : Nat) (acts : List Activity) (s : String) :
    (pyStrip s = "" → get_canonical_activity_name u acts s = "") ∧
    (iexactMatches u acts (pyStrip s) = [] →
      get_canonical_activity_name u acts s = pyStrip s) ∧
    (iexactMatches u acts (pyStrip s) ≠ [] →
      get_canonical_activity_name u acts s ∈
        (iexactMatches u acts (pyStrip s)).map (·.name) ∧
      ∀ n ∈ (iexactMatches u acts (pyStrip s)).map (·.name),
        ((iexactMatches u acts (pyStrip s)).map (·.name)).count n ≤
          ((iexactMatches u acts (pyStrip s)).map (·.name)).count
            (get_canonical_activity_name u acts s)) ∧
    get_canonical_activity_name 1 meetingStore "MEETING" = "Meeting" := by
  refine ⟨?_, ?_, ?_, by decide⟩
  · intro h
    rw [canonical_eq]
    cases hs : (groupCounts ((iexactMatches u acts (pyStrip s)).map (·.name))).insertionSort
        byCountDesc with
    | nil => simpa using h
    | cons g rest =>
      simp only []
      have hg : g ∈ groupCounts ((iexactMatches u acts (pyStrip s)).map (·.name)) := by
        have : g ∈ (groupCounts ((iexactMatches u acts (pyStrip s)).map
            (·.name))).insertionSort byCountDesc := by
          rw [hs]; simp
        exact (List.mem_insertionSort byCountDesc).mp this
      obtain ⟨hn, _⟩ := mem_groupCounts hg
      obtain ⟨a, ha, hna⟩ := List.mem_map.mp hn
      obtain ⟨_, hex⟩ := mem_iexactMatches ha
      rw [h] at hex
      unfold iexact at hex
      rw [lowerStr_empty] at hex
      have hlo : lowerStr a.name = "" := by simpa using hex
      have : a.name = "" := lowerStr_eq_empty hlo
      rw [← hna, this]
  · intro h
    rw [canonical_eq, h]
    simp [groupCounts]
  · intro hne
    have hnnil : (iexactMatches u acts (pyStrip s)).map (·.name) ≠ [] := by
      intro hq
      exact hne (List.map_eq_nil_iff.mp hq)
    obtain ⟨n0, hn0⟩ := List.exists_mem_of_ne_nil _ hnnil
    have hg0 : (n0, ((iexactMatches u acts (pyStrip s)).map (·.name)).count n0) ∈
        groupCounts ((iexactMatches u acts (pyStrip s)).map (·.name)) :=
      groupCounts_of_mem hn0
    cases hs : (groupCounts ((iexactMatches u acts (pyStrip s)).map (·.name))).insertionSort
        byCountDesc with
    | nil =>
      exfalso
      have : (n0, ((iexactMatches u acts (pyStrip s)).map (·.name)).count n0) ∈
          (groupCounts ((iexactMatches u acts (pyStrip s)).map (·.name))).insertionSort
            byCountDesc := (List.mem_insertionSort byCountDesc).mpr hg0
      rw [hs] at this
      simp at this
    | cons g rest =>
      have hres : get_canonical_activity_name u acts s = g.1 := by
        rw [canonical_eq, hs]
      have hg : g ∈ groupCounts ((iexactMatches u acts (pyStrip s)).map (·.name)) := by
        have : g ∈ (groupCounts ((iexactMatches u acts (pyStrip s)).map
            (·.name))).insertionSort byCountDesc := by
          rw [hs]; simp
        exact (List.mem_insertionSort byCountDesc).mp this
      obtain ⟨hgn, hgc⟩ := mem_groupCounts hg
      constructor
      · rw [hres]; exact hgn
      · intro n hn
        have hmem : (n, ((iexactMatches u acts (pyStrip s)).map (·.name)).count n) ∈
            groupCounts ((iexactMatches u acts (pyStrip s)).map (·.name)) :=
          groupCounts_of_mem hn
        have hrel := sorted_head_rel byCountDesc hs _ hmem
        unfold byCountDesc at hrel
        rw [hres, ← hgc]
        exact hrel

/-- Witness for C5 at the concrete Meeting store: the matches are nonempty
and MEETING canonicalizes to a matching exact variant of maximal count. -/
theorem C5_canonicalize_witness :
    iexactMatches 1 meetingStore (pyStrip "MEETING") ≠ [] ∧
    get_canonical_activity_name 1 meetingStore "MEETING" ∈
      (iexactMatches 1 meetingStore (pyStrip "MEETING")).map (·.name) :=
  ⟨by decide, ((C5_canonicalize 1 meetingStore "MEETING").2.2.1 (by decide)).1⟩

/-- C9: an empty or whitespace-only query yields no suggestions; otherwise
the suggestions are at most 5, sorted by count descending with ties by name
ascending, each one an exact-name group of the owner's case-insensitive
substring matches with its occurrence count; over {Meeting×5, Meetup×2} the
query "meet" returns Meeting (5) then Meetup (2). -/
theorem C9_autocomplete (u : Nat) (q : String) (acts : List Activity) :
    (pyStrip q = "" → autocomplete_activities u q acts = []) ∧
    (autocomplete_activities u q acts).length ≤ 5 ∧
    ((autocomplete_activities u q acts).map fun s => (s.name, s.count)).Pairwise
      byCountDescNameAsc ∧
    (∀ s ∈ autocomplete_activities u q acts,
      s.name ∈ matchingNames u (pyStrip q) acts ∧
      s.count = (matchingNames u (pyStrip q) acts).count s.name) ∧
    (autocomplete_activities 1 "meet" meetupStore).map (fun s => (s.name, s.count)) =
      [("Meeting", 5), ("Meetup", 2)] := by
  by_cases hq : pyStrip q = ""
  · refine ⟨fun _ => by simp [autocomplete_activities, hq], ?_, ?_, ?_, by decide⟩
    all_goals simp [autocomplete_activities, hq]
  · have heq := autocomplete_eq u q acts hq
    refine ⟨fun hc => absurd hc hq, ?_, ?_, ?_, by decide⟩
    · rw [heq, List.length_map, List.length_take]
      exact min_le_left _ _
    · rw [heq, List.map_map, List.pairwise_map]
      exact List.Pairwise.sublist (List.take_sublist 5 _)
        (List.sorted_insertionSort byCountDescNameAsc _)
    · rw [heq]
      intro s hs
      obtain ⟨g, hg5, hgs⟩ := List.mem_map.mp hs
      have hgsort : g ∈ (groupCounts (matchingNames u (pyStrip q) acts)).insertionSort
          byCountDescNameAsc := (List.take_sublist 5 _).subset hg5
      have hggrp : g ∈ groupCounts (matchingNames u (pyStrip q) acts) :=
        (List.mem_insertionSort byCountDescNameAsc).mp hgsort
      obtain ⟨hn, hc⟩ := mem_groupCounts hggrp
      rw [← hgs]
      exact ⟨hn, hc⟩

/-- Witness for C9: stripping does not empty the query "meet", and the
suggestion Meeting carries the exact-name count 5 of the matches. -/
theorem C9_autocomplete_witness :
    (⟨"Meeting", 5, true⟩ : Suggestion) ∈ autocomplete_activities 1 "meet" meetupStore ∧
    (⟨"Meeting", 5, true⟩ : Suggestion).count =
      (matchingNames 1 (pyStrip "meet") meetupStore).count "Meeting" :=
  ⟨by decide, ((C9_autocomplete 1 "meet" meetupStore).2.2.2.1 ⟨"Meeting", 5, true⟩
    (by decide)).2⟩

/-- C3: recent_activities is the day's activities of the owner sorted by
occurred-at descending, truncated to 5; it is independent of the creation
timestamps; and inserting an activity whose occurred-at is strictly earlier
than all of 6 same-day activities leaves the top-5 result unchanged. -/
theorem C3_recent_activities (u : Nat) (day : Int) (acts : List Activity)
    (f : Activity → Int) (nw : Activity) :
    recent_activities u day acts = (sortByDateDesc (today_activities u day acts)).take 5 ∧
    recent_activities u day (acts.map fun a => { a with created_at := f a }) =
      (recent_activities u day acts).map (fun a => { a with created_at := f a }) ∧
    ((today_activities u day acts).length = 6 → nw.user = u → onDay day nw = true →
      (∀ a ∈ today_activities u day acts, nw.activity_date < a.activity_date) →
      recent_activities u day (acts ++ [nw]) = recent_activities u day acts) := by
  refine ⟨rfl, ?_, ?_⟩
  · have htoday : today_activities u day (acts.map fun a => { a with created_at := f a }) =
        (today_activities u day acts).map fun a => { a with created_at := f a } := by
      unfold today_activities ownedBy
      rw [filter_map_comm, filter_map_comm]
      have h1 : (acts.filter fun a =>
          ({ a with created_at := f a } : Activity).user == u) =
          acts.filter fun a => a.user == u :=
        List.filter_congr fun a _ => rfl
      have h2 : ((acts.filter fun a => a.user == u).filter fun a =>
          onDay day { a with created_at := f a }) =
          (acts.filter fun a => a.user == u).filter (onDay day) :=
        List.filter_congr fun a _ => rfl
      rw [h1, h2]
    unfold recent_activities
    rw [htoday]
    unfold sortByDateDesc
    rw [insertionSort_map byDateDesc byDateDesc
      (fun a => { a with created_at := f a }) (fun a b => Iff.rfl)]
    rw [List.map_take]
  · intro hlen hu hd hearly
    have htoday : today_activities u day (acts ++ [nw]) =
        today_activities u day acts ++ [nw] := by
      unfold today_activities ownedBy
      rw [List.filter_append, List.filter_append]
      have h1 : List.filter (fun a => a.user == u) [nw] = [nw] := by
        simp [hu]
      rw [h1]
      have h2 : List.filter (onDay day) [nw] = [nw] := by
        simp [hd]
      rw [h2]
    unfold recent_activities
    rw [htoday]
    unfold sortByDateDesc
    rw [insertionSort_append_single byDateDesc nw _
      (fun a ha => le_of_lt (hearly a ha))]
    rw [List.take_append_of_le_length]
    rw [((today_activities u day acts).perm_insertionSort byDateDesc).length_eq]
    omega

/-- Witness for C3: six same-day activities plus a strictly earlier
retroactive entry keep the same top 5. -/
theorem C3_recent_activities_witness :
    recent_activities 1 0 (sixStore ++ [earlyAct]) = recent_activities 1 0 sixStore :=
  (C3_recent_activities 1 0 sixStore (fun _ => 0) earlyAct).2.2
    (by decide) (by decide) (by decide) (by decide)

/-- C6: hours_per_category has exactly the keys -2, -1, 0, 1, 2; each value
is the day's summed minutes at that energy level divided by 60 and rounded
to 2 decimals; the 0 slot is 0 whenever no stored activity has energy level
0; and on 180 min at level 2 plus 15 min at level −1 the values are 3.0 at
key 2 and 0.25 at key −1. -/
theorem C6_hours_per_category (u : Nat) (day : Int) (acts : List Activity) :
    ((hours_per_category u day acts).map (·.1) = ["-2", "-1", "0", "1", "2"]) ∧
    (∀ c ∈ ([-2, -1, 0, 1, 2] : List Int),
      (hours_per_category u day acts).lookup (toString c) =
        some (round2 ((categoryMinutes u day acts c : ℚ) / 60))) ∧
    ((∀ a ∈ acts, a.energy_level ≠ 0) →
      (hours_per_category u day acts).lookup "0" = some 0) ∧
    ((hours_per_category 1 0 hoursStore).lookup "2" = some 3 ∧
      (hours_per_category 1 0 hoursStore).lookup "-1" = some (1 / 4)) := by
  refine ⟨rfl, ?_, ?_, ?_, ?_⟩
  · intro c hc
    simp only [List.mem_cons, List.not_mem_nil, or_false] at hc
    rcases hc with rfl | rfl | rfl | rfl | rfl <;> rfl
  · intro h
    have hcm : categoryMinutes u day acts 0 = 0 := by
      unfold categoryMinutes
      have hnil : (today_activities u day acts).filter (fun a => a.energy_level == 0) =
          [] := by
        rw [List.filter_eq_nil_iff]
        intro a ha
        have hat : a ∈ acts := by
          unfold today_activities at ha
          exact (mem_ownedBy (List.mem_filter.mp ha).1).1
        simpa using h a hat
      rw [hnil]
      simp
    have h0 : (hours_per_category u day acts).lookup "0" =
        some (round2 ((categoryMinutes u day acts 0 : ℚ) / 60)) := rfl
    rw [h0, hcm]
    simp [round2]
  · have h2 : (hours_per_category 1 0 hoursStore).lookup "2" =
        some (round2 ((categoryMinutes 1 0 hoursStore 2 : ℚ) / 60)) := rfl
    have hcm2 : categoryMinutes 1 0 hoursStore 2 = 180 := by decide
    rw [h2, hcm2]
    congr 1
    norm_num [round2]
  · have h1 : (hours_per_category 1 0 hoursStore).lookup "-1" =
        some (round2 ((categoryMinutes 1 0 hoursStore (-1) : ℚ) / 60)) := rfl
    have hcm1 : categoryMinutes 1 0 hoursStore (-1) = 15 := by decide
    rw [h1, hcm1]
    congr 1
    norm_num [round2]

/-- Witness for C6: in the concrete two-activity store no activity has
energy level 0, so the 0 slot is 0. -/
theorem C6_hours_per_category_witness :
    (hours_per_category 1 0 hoursStore).lookup "0" = some 0 :=
  (C6_hours_per_category 1 0 hoursStore).2.2.1 (by decide)

/-- C1 counterexample: the code filters rows by energy sign BEFORE grouping,
so with the store {X: energies −2, −2, 1} the name X appears in
top_energizing (with filtered mean 1) although its overall mean energy is
−1 < 0 — refuting the claim that no name group with negative overall mean
appears in top_energizing. -/
theorem C1_counterexample :
    ∃ g ∈ energizing_activities 1 mixedStore, overallMean 1 mixedStore g.name < 0 := by
  have henz : energizing_activities 1 mixedStore =
      [mkGroup (posRows 1 mixedStore) "X"] := rfl
  refine ⟨mkGroup (posRows 1 mixedStore) "X", by rw [henz]; exact List.mem_singleton.mpr rfl, ?_⟩
  show overallMean 1 mixedStore "X" < 0
  have hflt : (ownedBy 1 mixedStore).filter (fun a => a.name == "X") = mixedStore := by
    decide
  unfold overallMean
  rw [hflt]
  show (((mixedStore.map (·.energy_level)).sum : ℤ) : ℚ) /
    ((mixedStore.length : ℕ) : ℚ) < 0
  have hsum : (mixedStore.map (·.energy_level)).sum = -3 := by decide
  have hlen : mixedStore.length = 3 := by decide
  rw [hsum, hlen]
  norm_num

/-- C1 amended: top_draining and top_energizing group only the owner's
negative-energy (resp. positive-energy) rows by exact name, with each
group's mean taken over just those sign-filtered rows; the lists hold at
most 3 groups sorted ascending (resp. descending) by that filtered mean,
every draining mean is < 0 and every energizing mean is > 0, but a name
whose overall mean is negative can still appear in top_energizing. -/
theorem C1_top_groups (u : Nat) (acts : List Activity) :
    (draining_activities u acts).length ≤ 3 ∧
    (energizing_activities u acts).length ≤ 3 ∧
    draining_activities u acts =
      ((groupByName (negRows u acts)).insertionSort byAvgAsc).take 3 ∧
    energizing_activities u acts =
      ((groupByName (posRows u acts)).insertionSort byAvgDesc).take 3 ∧
    (draining_activities u acts).Pairwise byAvgAsc ∧
    (energizing_activities u acts).Pairwise byAvgDesc ∧
    (∀ g ∈ draining_activities u acts,
      g.avg_energy < 0 ∧ g = mkGroup (negRows u acts) g.name) ∧
    (∀ g ∈ energizing_activities u acts,
      0 < g.avg_energy ∧ g = mkGroup (posRows u acts) g.name) := by
  refine ⟨?_, ?_, rfl, rfl, ?_, ?_, ?_, ?_⟩
  · rw [draining_activities, List.length_take]
    exact min_le_left _ _
  · rw [energizing_activities, List.length_take]
    exact min_le_left _ _
  · exact List.Pairwise.sublist (List.take_sublist 3 _)
      (List.sorted_insertionSort byAvgAsc _)
  · exact List.Pairwise.sublist (List.take_sublist 3 _)
      (List.sorted_insertionSort byAvgDesc _)
  · intro g hg
    have hgrp : g ∈ groupByName (negRows u acts) := by
      have hsort : g ∈ (groupByName (negRows u acts)).insertionSort byAvgAsc :=
        (List.take_sublist 3 _).subset hg
      exact (List.mem_insertionSort byAvgAsc).mp hsort
    obtain ⟨n, hn, hgeq, hne⟩ := mem_groupByName hgrp
    have hname : g.name = n := by rw [hgeq]; rfl
    have hallneg : ∀ x ∈ (groupOf (negRows u acts) n).map (·.energy_level), x < 0 := by
      intro x hx
      obtain ⟨a, ha, hax⟩ := List.mem_map.mp hx
      have hanr : a ∈ negRows u acts := List.mem_of_mem_filter ha
      unfold negRows at hanr
      have := (List.mem_filter.mp hanr).2
      rw [← hax]
      simpa using this
    have hmapne : (groupOf (negRows u acts) n).map (·.energy_level) ≠ [] := by
      intro hq
      exact hne (List.map_eq_nil_iff.mp hq)
    have hsum : ((groupOf (negRows u acts) n).map (·.energy_level)).sum < 0 :=
      sum_neg_of_all_neg _ hmapne hallneg
    have hlen : 0 < (groupOf (negRows u acts) n).length :=
      List.length_pos.mpr hne
    constructor
    · rw [hgeq]
      show ((((groupOf (negRows u acts) n).map (·.energy_level)).sum : ℤ) : ℚ) /
        ((groupOf (negRows u acts) n).length : ℚ) < 0
      apply div_neg_of_neg_of_pos
      · exact_mod_cast hsum
      · exact_mod_cast hlen
    · rw [hname]
      exact hgeq
  · intro g hg
    have hgrp : g ∈ groupByName (posRows u acts) := by
      have hsort : g ∈ (groupByName (posRows u acts)).insertionSort byAvgDesc :=
        (List.take_sublist 3 _).subset hg
      exact (List.mem_insertionSort byAvgDesc).mp hsort
    obtain ⟨n, hn, hgeq, hne⟩ := mem_groupByName hgrp
    have hname : g.name = n := by rw [hgeq]; rfl
    have hallpos : ∀ x ∈ (groupOf (posRows u acts) n).map (·.energy_level), 0 < x := by
      intro x hx
      obtain ⟨a, ha, hax⟩ := List.mem_map.mp hx
      have hapr : a ∈ posRows u acts := List.mem_of_mem_filter ha
      unfold posRows at hapr
      have := (List.mem_filter.mp hapr).2
      rw [← hax]
      simpa using this
    have hmapne : (groupOf (posRows u acts) n).map (·.energy_level) ≠ [] := by
      intro hq
      exact hne (List.map_eq_nil_iff.mp hq)
    have hsum : 0 < ((groupOf (posRows u acts) n).map (·.energy_level)).sum :=
      sum_pos_of_all_pos _ hmapne hallpos
    have hlen : 0 < (groupOf (posRows u acts) n).length :=
      List.length_pos.mpr hne
    constructor
    · rw [hgeq]
      show 0 < ((((groupOf (posRows u acts) n).map (·.energy_level)).sum : ℤ) : ℚ) /
        ((groupOf (posRows u acts) n).length : ℚ)
      apply div_pos
      · exact_mod_cast hsum
      · exact_mod_cast hlen
    · rw [hname]
      exact hgeq

/-- Witness for C1 amended at the mixed store: the single energizing group X
has positive filtered mean and is the group of the positive rows only. -/
theorem C1_top_groups_witness :
    0 < (mkGroup (posRows 1 mixedStore) "X").avg_energy ∧
    mkGroup (posRows 1 mixedStore) "X" =
      mkGroup (posRows 1 mixedStore) (mkGroup (posRows 1 mixedStore) "X").name :=
  (C1_top_groups 1 mixedStore).2.2.2.2.2.2.2 (mkGroup (posRows 1 mixedStore) "X")
    (by
      rw [show energizing_activities 1 mixedStore =
        [mkGroup (posRows 1 mixedStore) "X"] from rfl]
      exact List.mem_singleton.mpr rfl)

/-- C4 counterexample: with 25 matching activities (2 pages), requesting
page 0 returns the LAST page (Django get_page maps numbers below 1 to
EmptyPage and then to the last page), not page 1 as claimed: the returned
items differ from page 1's and the resolved page number is 2. -/
theorem C4_counterexample :
    (activity_history 1 noFilters 0 0 pagingStore (.num 0)).1 ≠
      (activity_history 1 noFilters 0 0 pagingStore (.num 1)).1 ∧
    (activity_history 1 noFilters 0 0 pagingStore (.num 0)).2.1 = 2 := by
  constructor <;> decide

/-- C4 amended: every returned page has at most 20 items; a page number
beyond the last page returns the last page; a page number of 0 or below
also returns the LAST page (not page 1); and a non-numeric energy filter is
silently dropped. -/
theorem C4_pagination (u : Nat) (f : HistoryFilters) (now dayStart : Int)
    (acts : List Activity) (p : PageParam) (n : Int) (s : String) :
    (activity_history u f now dayStart acts p).1.length ≤ 20 ∧
    ((numPages (historySorted u f now dayStart acts).length : Int) < n →
      activity_history u f now dayStart acts (.num n) =
        activity_history u f now dayStart acts
          (.num (numPages (historySorted u f now dayStart acts).length))) ∧
    (n < 1 →
      activity_history u f now dayStart acts (.num n) =
        activity_history u f now dayStart acts
          (.num (numPages (historySorted u f now dayStart acts).length))) ∧
    (pyInt? s = none →
      activity_history u { f with energy := some s } now dayStart acts p =
        activity_history u { f with energy := none } now dayStart acts p) := by
  refine ⟨?_, ?_, ?_, ?_⟩
  · have h : (activity_history u f now dayStart acts p).1 =
        ((historySorted u f now dayStart acts).drop
          ((resolvePage (historySorted u f now dayStart acts).length p - 1) * 20)).take
          20 := rfl
    rw [h, List.length_take]
    exact min_le_left _ _
  · intro h
    unfold activity_history getPage
    rw [resolvePage_high h, resolvePage_self]
  · intro h
    unfold activity_history getPage
    rw [resolvePage_low h, resolvePage_self]
  · intro hs
    have he : applyEnergyFilter (some s) (ownedBy u acts) =
        applyEnergyFilter none (ownedBy u acts) := by
      simp only [applyEnergyFilter]
      by_cases hse : s = ""
      · rw [if_pos hse]
      · rw [if_neg hse, hs]
    have hfe : historyFiltered u { f with energy := some s } now dayStart acts =
        historyFiltered u { f with energy := none } now dayStart acts := by
      simp only [historyFiltered]
      rw [he]
    unfold activity_history historySorted
    rw [hfe]

/-- Witness for C4 at the 25-item store: page 5 (beyond the last page 2) and
page 0 both return page 2, and the energy value "abc" is ignored. -/
theorem C4_pagination_witness :
    activity_history 1 noFilters 0 0 pagingStore (.num 5) =
      activity_history 1 noFilters 0 0 pagingStore
        (.num (numPages (historySorted 1 noFilters 0 0 pagingStore).length)) ∧
    activity_history 1 noFilters 0 0 pagingStore (.num 0) =
      activity_history 1 noFilters 0 0 pagingStore
        (.num (numPages (historySorted 1 noFilters 0 0 pagingStore).length)) ∧
    activity_history 1 { noFilters with energy := some "abc" } 0 0 pagingStore .missing =
      activity_history 1 { noFilters with energy := none } 0 0 pagingStore .missing :=
  ⟨(C4_pagination 1 noFilters 0 0 pagingStore .missing 5 "abc").2.1 (by decide),
   (C4_pagination 1 noFilters 0 0 pagingStore .missing 0 "abc").2.2.1 (by decide),
   (C4_pagination 1 noFilters 0 0 pagingStore .missing 5 "abc").2.2.2 (by decide)⟩

/-- C8 counterexample: the history query orders only by occurred-at, so for
two same-owner rows with equal occurred-at and ids 1, 2, the id-ASCENDING
arrangement is a valid result of the query, refuting the claim that equal
occurred-at items are always ordered by id descending. -/
theorem C8_counterexample :
    ValidHistoryOrder 1 noFilters 0 0 tieStore tieStore ∧ ¬ tiesIdDesc tieStore := by
  refine ⟨⟨?_, ?_⟩, ?_⟩
  · have h : historyFiltered 1 noFilters 0 0 tieStore = tieStore := by decide
    rw [h]
  · show tieStore.Pairwise byDateDesc
    unfold tieStore
    rw [List.pairwise_cons]
    refine ⟨?_, ?_⟩
    · intro b hb
      simp only [List.mem_cons, List.not_mem_nil, or_false] at hb
      rw [hb]
      exact le_refl _
    · simp
  · intro hcon
    unfold tiesIdDesc tieStore at hcon
    rw [List.pairwise_cons] at hcon
    have h2 := hcon.1 (⟨2, 1, "A", 1, 60, 0, 0⟩ : Activity) (by simp) rfl
    simp at h2

/-- C8 amended: the delivered history list is a permutation of the filtered
rows sorted by occurred-at descending; the relative order of rows with
equal occurred-at is not pinned down by the code (the ORDER BY clause has
no id tie-break), so no id-descending tie order is guaranteed. -/
theorem C8_history_order (u : Nat) (f : HistoryFilters) (now dayStart : Int)
    (acts : List Activity) :
    ValidHistoryOrder u f now dayStart acts (historySorted u f now dayStart acts) :=
  ⟨List.perm_insertionSort byDateDesc _, List.sorted_insertionSort byDateDesc _⟩

/-- C7: a submission dated strictly after now (even by one second) fails
validation while one a second in the past passes (other fields valid); a
valid creation stores exactly duration_hours·60 + duration_minutes; a total
outside [1, 1440] is rejected; an empty-after-trim name is rejected; and
whenever validation fails, neither create nor edit changes the store. -/
theorem C7_validation (u newId pk : Nat) (now : Int) (s : Submission)
    (acts : List Activity) (d : Int) :
    (s.activity_date = some d → now < d → formValid now s = false) ∧
    (nameOk s = true → energyFieldOk s = true → hoursFieldOk s = true →
      minutesFieldOk s = true → durationOk s = true →
      s.activity_date = some (now - 1) → formValid now s = true) ∧
    (formValid now s = true →
      (logActivity u newId now s acts).map (·.duration) =
        acts.map (·.duration) ++ [s.duration_hours * 60 + s.duration_minutes]) ∧
    (hoursFieldOk s = true → minutesFieldOk s = true →
      (s.duration_hours * 60 + s.duration_minutes < 1 ∨
        1440 < s.duration_hours * 60 + s.duration_minutes) →
      formValid now s = false) ∧
    (pyStrip s.name = "" → formValid now s = false) ∧
    (formValid now s = false → logActivity u newId now s acts = acts ∧
      editActivity u pk now s acts = acts) := by
  refine ⟨?_, ?_, ?_, ?_, ?_, ?_⟩
  · intro hd hlt
    have hdo : dateOk now s = false := by
      unfold dateOk
      rw [hd]
      simp [hlt]
    unfold formValid
    rw [hdo]
    simp
  · intro hn he hh hm hdur hd
    have hdo : dateOk now s = true := by
      unfold dateOk
      rw [hd]
      have hlt : ¬ (now < now - 1) := by omega
      simp [hlt]
    unfold formValid
    rw [hn, he, hh, hm, hdo, hdur]
    rfl
  · intro hv
    have hh : hoursFieldOk s = true := by
      unfold formValid at hv
      simp only [Bool.and_eq_true] at hv
      exact hv.1.1.1.2
    have hm : minutesFieldOk s = true := by
      unfold formValid at hv
      simp only [Bool.and_eq_true] at hv
      exact hv.1.1.2
    have htd : totalDuration s = s.duration_hours * 60 + s.duration_minutes := by
      unfold totalDuration
      rw [if_pos hh, if_pos hm]
    unfold logActivity
    rw [if_pos hv]
    simp [htd]
  · intro hh hm hrange
    have htd : totalDuration s = s.duration_hours * 60 + s.duration_minutes := by
      unfold totalDuration
      rw [if_pos hh, if_pos hm]
    have hdo : durationOk s = false := by
      unfold durationOk
      rw [htd]
      rcases hrange with h1 | h1
      · have : ¬ (1 ≤ s.duration_hours * 60 + s.duration_minutes) := by omega
        simp [this]
      · have : ¬ (s.duration_hours * 60 + s.duration_minutes ≤ 1440) := by omega
        simp [this]
    unfold formValid
    rw [hdo]
    simp
  · intro hname
    have hno : nameOk s = false := by
      unfold nameOk cleanedName
      rw [hname]
      simp
    unfold formValid
    rw [hno]
    simp
  · intro hv
    constructor
    · unfold logActivity
      rw [if_neg (by simp [hv])]
    · unfold editActivity
      cases hfind : findActivity acts pk u with
      | none => rfl
      | some a =>
        rw [if_neg (by simp [hv])]

/-- Witness for C7 at concrete submissions with now = 100: the one-second
future date is rejected, the one-second past date accepted, the accepted
creation stores 90 minutes, the 1470-minute total and the whitespace name
are rejected, and the rejected submission leaves the store unchanged. -/
theorem C7_validation_witness :
    formValid 100 subFuture = false ∧
    formValid 100 subGood = true ∧
    (logActivity 1 7 100 subGood []).map (·.duration) = [90] ∧
    formValid 100 subLong = false ∧
    formValid 100 subEmptyName = false ∧
    logActivity 1 7 100 subEmptyName [] = [] := by
  refine ⟨?_, ?_, ?_, ?_, ?_, ?_⟩
  · exact (C7_validation 1 7 0 100 subFuture [] 101).1 rfl (by decide)
  · exact (C7_validation 1 7 0 100 subGood [] 0).2.1 (by decide) (by decide)
      (by decide) (by decide) (by decide) rfl
  · exact (C7_validation 1 7 0 100 subGood [] 0).2.2.1
      ((C7_validation 1 7 0 100 subGood [] 0).2.1 (by decide) (by decide)
        (by decide) (by decide) (by decide) rfl)
  · exact (C7_validation 1 7 0 100 subLong [] 0).2.2.2.1 (by decide) (by decide)
      (Or.inr (by decide))
  · exact (C7_validation 1 7 0 100 subEmptyName [] 0).2.2.2.2.1 (by decide)
  · exact ((C7_validation 1 7 0 100 subEmptyName [] 0).2.2.2.2.2
      ((C7_validation 1 7 0 100 subEmptyName [] 0).2.2.2.2.1 (by decide))).1

/-- C10: a successful creation does not store the submitted name verbatim:
the appended activity's name is the canonicalization of the submitted name
against the owner's existing activities; typing MEETING with five stored
Meeting activities stores Meeting. -/
theorem C10_canonical_on_create (u newId : Nat) (now : Int) (s : Submission)
    (acts : List Activity) :
    formValid now s = true →
    (logActivity u newId now s acts).map (·.name) =
      acts.map (·.name) ++ [get_canonical_activity_name u acts s.name] := by
  intro hv
  unfold logActivity
  rw [if_pos hv]
  have hcan : get_canonical_activity_name u acts (cleanedName s) =
      get_canonical_activity_name u acts s.name := by
    rw [canonical_eq, canonical_eq]
    unfold cleanedName
    rw [pyStrip_idem]
  simp [hcan]

/-- Witness for C10: logging MEETING with five stored Meeting activities
appends an activity stored under the canonical name Meeting. -/
theorem C10_canonical_on_create_witness :
    (logActivity 1 9 100 subMeeting fiveMeetings).map (·.name) =
      fiveMeetings.map (·.name) ++ ["Meeting"] := by
  rw [C10_canonical_on_create 1 9 100 subMeeting fiveMeetings (by decide)]
  decide

end EnergyManager
